import Mathlib

/-!
Verification development for the TradeXAI repository: a shallow embedding of
`src/utils.py` (indicator recurrences), `src/strategy.py` (signal generation)
and `src/backtest.py` (the bar-by-bar trade simulator), with theorems that
settle the specification claims against it.

Prices and monetary amounts are modelled as exact rationals; a pandas `NaN`
entry is modelled as `none : Option ℚ` and the IEEE rule "any comparison with
NaN is false" is made explicit in the comparison helpers.  Timestamps
(`row.name` in the source) are modelled as natural numbers `time` together
with the calendar-date marker `date`.
-/

namespace TradeXAI

/-! ## utils.py -/

/-- Auxiliary recurrence for `ema`: given smoothing factor `a` and previous
value `v`, produce the remaining EMA values (pandas `ewm(span, adjust=False)`:
`value[t] = price[t]·a + value[t−1]·(1−a)`). -/
def emaFrom (a : ℚ) (v : ℚ) : List ℚ → List ℚ
  | [] => []
  | x :: xs =>
    let v2 := x * a + v * (1 - a)
    v2 :: emaFrom a v2 xs

/-- Embeds `utils.ema`: `series.ewm(span=span, adjust=False).mean()`, i.e. the
seeded recurrence `value[0] = price[0]`,
`value[t] = price[t]·α + value[t−1]·(1−α)` with `α = 2/(span+1)`. -/
def ema (xs : List ℚ) (span : ℕ) : List ℚ :=
  match xs with
  | [] => []
  | x :: rest => x :: emaFrom (2 / ((span : ℚ) + 1)) x rest

/-- Embeds `utils.macd`: returns `(macd_line, macd_signal, macd_hist)`. -/
def macd (series : List ℚ) (fast slow signal : ℕ) :
    List ℚ × List ℚ × List ℚ :=
  let fast_ema := ema series fast
  let slow_ema := ema series slow
  let macd_line := List.zipWith (· - ·) fast_ema slow_ema
  let macd_signal := ema macd_line signal
  let macd_hist := List.zipWith (· - ·) macd_line macd_signal
  (macd_line, macd_signal, macd_hist)

/-- A raw OHLCV bar (the columns of the input DataFrame used by the
indicator layer). -/
structure Bar where
  high : ℚ
  low : ℚ
  close : ℚ
  volume : ℚ
deriving DecidableEq

/-- True-range series of `utils.atr`: first bar has no previous close, so the
NaN entries of `tr2`/`tr3` are skipped by the row-wise `max` and the true
range is `high − low`; afterwards
`max(high−low, |high−prevClose|, |low−prevClose|)`. -/
def trueRange (bars : List Bar) : List ℚ :=
  match bars with
  | [] => []
  | b0 :: rest =>
    let rec go (prevClose : ℚ) : List Bar → List ℚ
      | [] => []
      | b :: bs =>
        max (b.high - b.low) (max |b.high - prevClose| |b.low - prevClose|)
          :: go b.close bs
    (b0.high - b0.low) :: go b0.close rest

/-- Rolling mean with `min_periods=1`: entry `i` is the mean of the last
`len` values up to `i`, a shrinking window at the start. -/
def rollingMean (len : ℕ) (xs : List ℚ) : List ℚ :=
  (List.range xs.length).map fun i =>
    let w := (xs.take (i + 1)).drop (i + 1 - len)
    w.sum / (w.length : ℚ)

/-- Embeds `utils.atr`: rolling mean (shrinking window) of the true range. -/
def atr (bars : List Bar) (length : ℕ) : List ℚ :=
  rollingMean length (trueRange bars)

/-- Cumulative sums of a series (pandas `cumsum`: entry `i` is the sum of the
prefix ending at `i`). -/
def cumsum (xs : List ℚ) : List ℚ :=
  (List.range xs.length).map fun i => (xs.take (i + 1)).sum

/-- Typical price of a bar: `(high + low + close) / 3`. -/
def typicalPrice (b : Bar) : ℚ := (b.high + b.low + b.close) / 3

/-- Cumulative `typical price × volume` series of `utils.vwap`. -/
def cum_vp (bars : List Bar) : List ℚ :=
  cumsum (bars.map fun b => typicalPrice b * b.volume)

/-- Cumulative volume series of `utils.vwap`. -/
def cum_vol (bars : List Bar) : List ℚ :=
  cumsum (bars.map Bar.volume)

/-- Forward-fill with explicit carry: a defined entry replaces the carry, an
undefined entry is replaced by the carry (pandas `fillna(method='ffill')`). -/
def ffillGo (cur : Option ℚ) : List (Option ℚ) → List (Option ℚ)
  | [] => []
  | some v :: xs => some v :: ffillGo (some v) xs
  | none :: xs => cur :: ffillGo cur xs

/-- Forward-fill a series; leading undefined entries stay undefined. -/
def ffill (l : List (Option ℚ)) : List (Option ℚ) := ffillGo none l

/-- Raw ratio series of `utils.vwap` before forward-filling: where the
cumulative volume is zero the numerator is also zero (volumes are
non-negative), so the float quotient is `0/0 = NaN`, modelled as `none`. -/
def vwapRaw (bars : List Bar) : List (Option ℚ) :=
  List.zipWith
    (fun vp vol => if vol = 0 then none else some (vp / vol))
    (cum_vp bars) (cum_vol bars)

/-- Embeds `utils.vwap`: `(cum_vp / cum_vol).fillna(method='ffill')`. -/
def vwap (bars : List Bar) : List (Option ℚ) :=
  ffill (vwapRaw bars)

/-! ## strategy.py -/

/-- Close-price column of a bar list. -/
def closes (bars : List Bar) : List ℚ := bars.map Bar.close

/-- Embeds the `pullback_to_ema` column of `strategy.generate_signals`
(line 82): `((close <= ema9) & (close >= ema21)) | (|close − ema21| ≤ 1.5·atr)`,
computed pointwise over the `close`, `ema9`, `ema21` and `atr` columns. -/
def pullback_to_ema (bars : List Bar) (s9 s21 alen : ℕ) : List Bool :=
  List.zipWith
    (fun c w =>
      decide ((c ≤ w.1 ∧ w.2.1 ≤ c) ∨ |c - w.2.1| ≤ 3 / 2 * w.2.2))
    (closes bars)
    ((ema (closes bars) s9).zip ((ema (closes bars) s21).zip (atr bars alen)))

/-- Strict greater-than on possibly-NaN values, as pandas evaluates it: any
comparison involving NaN is `False`. -/
def qgt : Option ℚ → Option ℚ → Bool
  | some a, some b => decide (b < a)
  | _, _ => false

/-- Embeds the `htf_bull` column (strategy.py line 67):
`(close > ema200_htf) & (macd_hist_htf > 0)` with NaN comparing false. -/
def htf_bull (close : ℚ) (ema200_htf macd_hist_htf : Option ℚ) : Bool :=
  qgt (some close) ema200_htf && qgt macd_hist_htf (some 0)

/-- Embeds the `htf_bear` column (strategy.py line 68):
`(close < ema200_htf) & (macd_hist_htf < 0)` with NaN comparing false. -/
def htf_bear (close : ℚ) (ema200_htf macd_hist_htf : Option ℚ) : Bool :=
  qgt ema200_htf (some close) && qgt (some 0) macd_hist_htf

/-- Embeds the `long_setup` column (strategy.py line 86): the conjunction of
the seven long-side filters. -/
def long_setup (in_ny htfBull emaLongStack vwapLong volOk macdRising
    pullback : Bool) : Bool :=
  in_ny && htfBull && emaLongStack && vwapLong && volOk && macdRising && pullback

/-- Embeds the `short_setup` column (strategy.py line 87). -/
def short_setup (in_ny htfBear emaShortStack vwapShort volOk macdFalling
    pullback : Bool) : Bool :=
  in_ny && htfBear && emaShortStack && vwapShort && volOk && macdFalling && pullback

/-- Embeds the `signal` column construction (strategy.py lines 90–92): start
at 0, set 1 where `long_setup`, then set −1 where `short_setup` (a later
assignment overwrites). -/
def mkSignal (longSetup shortSetup : Bool) : ℤ :=
  if shortSetup then -1 else if longSetup then 1 else 0

/-- Embeds the per-bucket HTF ema200 of `strategy.generate_signals` line 51:
`df['close'].resample(htf).apply(lambda x: ema(x, span)[-1] if len(x)>0 else np.nan)`.
The resampler's grouping of rows into consecutive fixed-size time buckets is
taken as given: the input is the list of buckets, each the list of closes
falling in that bucket (empty for gap buckets). -/
def ema200_htf_code (buckets : List (List ℚ)) (span : ℕ) : List (Option ℚ) :=
  buckets.map fun b => (ema b span).getLast?

/-- Last close of each bucket: `resample(htf).last()` (NaN for an empty
bucket). -/
def bucketLasts (buckets : List (List ℚ)) : List (Option ℚ) :=
  buckets.map List.getLast?

/-- Modelled from the spec (for the refinement comparison of the HTF ema200
construction): resample to the last close of each bucket, then apply the
seeded EMA recurrence of §4.1 across that resampled bucket series — the
construction the source actually uses for the HTF MACD histogram
(strategy.py line 53).  Stated for the case with no empty buckets, where the
`ffill` of the MACD path is the identity (`getLastD 0` then equals the
bucket's true last close). -/
def ema200_htf_spec (buckets : List (List ℚ)) (span : ℕ) : List (Option ℚ) :=
  (ema (buckets.map fun b => b.getLastD 0) span).map some

/-- Direct fold form of a within-bucket EMA's final value: seeded at the
bucket's first close, folded over the rest. -/
def emaFoldLast (a : ℚ) : List ℚ → Option ℚ
  | [] => none
  | x :: xs => some (xs.foldl (fun v y => y * a + v * (1 - a)) x)

/-! ## backtest.py -/

/-- Value of the module constant `CONTRACT_TICK_VALUE`. -/
def CONTRACT_TICK_VALUE : ℚ := 10

/-- The `params` entries the simulator reads, with the defaults supplied to
`params.get` in `run_backtest`. -/
structure Params where
  initial_equity : ℚ := 100000
  daily_loss_limit_pct : ℚ := 15 / 100
  atr_mult : ℚ := 12 / 10
deriving DecidableEq

/-- One row of the DataFrame returned by `generate_signals`, restricted to
the columns the simulator loop reads.  `time` models `row.name` (an ordinal
timestamp), `date` models `row.name.date()`. -/
structure SimRow where
  time : ℕ
  date : ℕ
  open_ : ℚ
  high : ℚ
  low : ℚ
  close : ℚ
  atr : ℚ
  signal : ℤ
  ema9_break_long : Bool
  ema9_break_short : Bool
  macd_flip_long : Bool
  macd_flip_short : Bool
  in_ny : Bool
deriving DecidableEq

/-- The `position` dict of `run_backtest`:
`{'side','entry_price','stop','tp','qty','entry_time'}`. -/
structure Position where
  side : String
  entry_price : ℚ
  stop : ℚ
  tp : ℚ
  qty : ℚ
  entry_time : ℕ
deriving DecidableEq

/-- A trade record appended to the ledger: the position dict spread together
with exit price, exit time, realized P&L and close reason. -/
structure Trade extends Position where
  exit_price : ℚ
  exit_time : ℕ
  pnl : ℚ
  reason : String
deriving DecidableEq

/-- The mutable loop state of `run_backtest`: equity, the daily marker and
daily P&L, the optional open position and the trade ledger. -/
structure SimState where
  equity : ℚ
  daily_start : ℕ
  daily_pnl : ℚ
  position : Option Position
  trades : List Trade
deriving DecidableEq

/-- Build the trade dict for a close: P&L is `(exit − entry)·qty·tickValue`
on the long side and `(entry − exit)·qty·tickValue` on the short side. -/
def closeTrade (pos : Position) (exit_price : ℚ) (exit_time : ℕ)
    (reason : String) : Trade :=
  { toPosition := pos
    exit_price := exit_price
    exit_time := exit_time
    pnl := (if pos.side = "LONG" then exit_price - pos.entry_price
            else pos.entry_price - exit_price) * pos.qty * CONTRACT_TICK_VALUE
    reason := reason }

/-- Apply a close to the state: append the trade, add its P&L to equity and
to the daily P&L, clear the position (each exit branch of the loop). -/
def applyClose (st : SimState) (pos : Position) (exit_price : ℚ)
    (exit_time : ℕ) (reason : String) : SimState :=
  let tr := closeTrade pos exit_price exit_time reason
  { st with
    trades := st.trades ++ [tr]
    equity := st.equity + tr.pnl
    daily_pnl := st.daily_pnl + tr.pnl
    position := none }

/-- The exit decision of the loop body (backtest.py lines 50–133): the four
conditions in source order — stop, take-profit, technical exit, session
close — first match wins; `none` when no condition fires.  Returns the exit
price and reason of the matched condition. -/
def exitCheck (pos : Position) (prev row : SimRow) : Option (ℚ × String) :=
  if pos.side = "LONG" then
    if row.low ≤ pos.stop then some (pos.stop, "stop")
    else if pos.tp ≤ row.high then some (pos.tp, "tp")
    else if row.ema9_break_long || row.macd_flip_long then
      some (row.close, "technical_exit")
    else if !row.in_ny && prev.in_ny then some (row.close, "session_close")
    else none
  else
    if pos.stop ≤ row.high then some (pos.stop, "stop")
    else if row.low ≤ pos.tp then some (pos.tp, "tp")
    else if row.ema9_break_short || row.macd_flip_short then
      some (row.close, "technical_exit")
    else if !row.in_ny && prev.in_ny then some (row.close, "session_close")
    else none

/-- Daily reset (backtest.py lines 38–40): when the row's date differs from
the stored marker, update the marker and zero the daily P&L. -/
def dailyReset (st : SimState) (row : SimRow) : SimState :=
  if row.date ≠ st.daily_start then
    { st with daily_start := row.date, daily_pnl := 0 }
  else st

/-- Entry handling (backtest.py lines 42–150): when the daily loss limit is
breached no entry may open; otherwise a signal of `1` opens a long at the
bar's open with `stop = open − atr_mult·atr` and `tp = open + 3·(open − stop)`,
a signal of `−1` opens a short symmetrically. -/
def entryStep (p : Params) (st : SimState) (row : SimRow) : SimState :=
  if st.daily_pnl ≤ -(p.daily_loss_limit_pct * st.equity) then st
  else if row.signal = 1 then
    let entry_price := row.open_
    let stop := entry_price - p.atr_mult * row.atr
    let tp := entry_price + 3 * (entry_price - stop)
    { st with position := some ⟨"LONG", entry_price, stop, tp, 1, row.time⟩ }
  else if row.signal = -1 then
    let entry_price := row.open_
    let stop := entry_price + p.atr_mult * row.atr
    let tp := entry_price - 3 * (stop - entry_price)
    { st with position := some ⟨"SHORT", entry_price, stop, tp, 1, row.time⟩ }
  else st

/-- One iteration of the loop `for i in range(1, len(df))`: daily reset, then
exit handling when a position is open (a close `continue`s — the entry block
is not reached), then entry handling when no position is open. -/
def stepBar (p : Params) (st : SimState) (prev row : SimRow) : SimState :=
  let st1 := dailyReset st row
  match st1.position with
  | some pos =>
    match exitCheck pos prev row with
    | some er => applyClose st1 pos er.1 row.time er.2
    | none => st1
  | none => entryStep p st1 row

/-- The whole loop, folding `stepBar` over consecutive `(prev, row)` pairs. -/
def simLoop (p : Params) : SimState → List (SimRow × SimRow) → SimState
  | st, [] => st
  | st, pr :: rest => simLoop p (stepBar p st pr.1 pr.2) rest

/-- Forced close after the loop (backtest.py lines 152–160): a position still
open is closed at the last bar's close with reason `end_of_data`; equity is
updated but the daily P&L is not. -/
def finalClose (rows : List SimRow) (st : SimState) : SimState :=
  match st.position, rows.getLast? with
  | some pos, some lastRow =>
    let exit_price := lastRow.close
    let tr := closeTrade pos exit_price lastRow.time "end_of_data"
    { st with
      trades := st.trades ++ [tr]
      equity := st.equity + tr.pnl
      position := none }
  | _, _ => st

/-- Winning trades: `trades_df[trades_df['pnl'] > 0]`. -/
def winsOf (l : List Trade) : List Trade :=
  l.filter fun t => decide (0 < t.pnl)

/-- Losing trades: `trades_df[trades_df['pnl'] <= 0]`. -/
def lossesOf (l : List Trade) : List Trade :=
  l.filter fun t => decide (t.pnl ≤ 0)

/-- Sum of the `pnl` column. -/
def pnlSum (l : List Trade) : ℚ := (l.map Trade.pnl).sum

/-- Win rate (backtest.py line 167): `len(wins)/len(trades)` when there is at
least one trade, otherwise `np.nan` (modelled `none`). -/
def win_rateOf (l : List Trade) : Option ℚ :=
  if 0 < l.length then some (((winsOf l).length : ℚ) / (l.length : ℚ))
  else none

/-- Profit factor (backtest.py line 168): `wins.sum()/(-losses.sum())` when
there is at least one losing trade, otherwise `np.nan` (modelled `none`). -/
def profit_factorOf (l : List Trade) : Option ℚ :=
  if 0 < (lossesOf l).length then
    some (pnlSum (winsOf l) / (-(pnlSum (lossesOf l))))
  else none

/-- The in-memory outputs of `run_backtest`: the ledger, final equity and the
summary metrics. -/
structure BTResult where
  trades : List Trade
  equity : ℚ
  total_pnl : ℚ
  win_rate : Option ℚ
  profit_factor : Option ℚ
deriving DecidableEq

/-- Assemble the result from the final loop state. -/
def mkResult (st : SimState) : BTResult :=
  { trades := st.trades
    equity := st.equity
    total_pnl := pnlSum st.trades
    win_rate := win_rateOf st.trades
    profit_factor := profit_factorOf st.trades }

/-- Initial loop state: equity from params, daily marker from the first
bar's date (`df.index[0].date()`), no position, empty ledger. -/
def initState (p : Params) (r0 : SimRow) : SimState :=
  { equity := p.initial_equity
    daily_start := r0.date
    daily_pnl := 0
    position := none
    trades := [] }

/-- Embeds `run_backtest` (the simulator loop over the signal-annotated
rows, backtest.py lines 23–168).  On an empty bar sequence the source raises
`IndexError` at `df.index[0].date()` (line 27); that fault is modelled as an
`Except.error`. -/
def run_backtest (rows : List SimRow) (p : Params) : Except String BTResult :=
  match rows with
  | [] => .error "IndexError"
  | r0 :: _ =>
    let st1 := simLoop p (initState p r0) (rows.zip rows.tail)
    .ok (mkResult (finalClose rows st1))

/-! ## Named exit-condition predicates (for the priority-order claims) -/

/-- Stop condition: long closes when `low ≤ stop`, short when `high ≥ stop`. -/
def stopHit (pos : Position) (row : SimRow) : Bool :=
  if pos.side = "LONG" then decide (row.low ≤ pos.stop)
  else decide (pos.stop ≤ row.high)

/-- Target condition: long closes when `high ≥ tp`, short when `low ≤ tp`. -/
def tpHit (pos : Position) (row : SimRow) : Bool :=
  if pos.side = "LONG" then decide (pos.tp ≤ row.high)
  else decide (row.low ≤ pos.tp)

/-- Technical-exit condition: ema9 break or MACD flip against the held side. -/
def techHit (pos : Position) (row : SimRow) : Bool :=
  if pos.side = "LONG" then row.ema9_break_long || row.macd_flip_long
  else row.ema9_break_short || row.macd_flip_short

/-- Session-close condition: the session flag was true on the previous bar
and is false on this bar. -/
def sessHit (prev row : SimRow) : Bool :=
  !row.in_ny && prev.in_ny

/-- The reason labels the simulator writes into the ledger. -/
def validReasons : List String :=
  ["stop", "tp", "technical_exit", "session_close", "end_of_data"]

/-! ## Concrete scenario data used by witnesses and counterexamples -/

/-- Position for the exit-priority demonstration: an open long from the
spec's concrete scenario (entry 100, stop 99, target 103). -/
def c1pos : Position := ⟨"LONG", 100, 99, 103, 1, 1⟩

/-- State holding `c1pos` open. -/
def c1st : SimState := ⟨100000, 0, 0, some c1pos, []⟩

/-- Previous bar for the exit-priority demonstration. -/
def c1prev : SimRow := ⟨1, 0, 100, 100, 100, 100, 1, 1, false, false, false, false, true⟩

/-- A bar whose low pierces the stop AND whose high reaches the target, with
a fresh entry signal firing: only the stop may be realized and no new
position may open. -/
def c1row : SimRow := ⟨2, 0, 100, 104, 98, 100, 1, 1, false, false, false, false, true⟩

/-- Parameters for the exit-priority demonstration. -/
def c1params : Params := { atr_mult := 1 }

/-- Parameters of the spec's concrete three-bar scenario: `atrMultiplier = 1`
(all other values at their defaults, tick value is the module constant 10). -/
def c2params : Params := { atr_mult := 1 }

/-- Open long used by the stop-exit witness. -/
def c2wpos : Position := ⟨"LONG", 100, 99, 103, 1, 1⟩

/-- State holding `c2wpos` open, for the stop-exit witness. -/
def c2wst : SimState := ⟨100000, 0, 0, some c2wpos, []⟩

/-- Bar 1 of the scenario (only seeds the previous-bar context). -/
def c2bar1 : SimRow := ⟨0, 0, 0, 0, 0, 0, 0, 0, false, false, false, false, true⟩

/-- Bar 2 of the scenario: long entry signal, open 100, ATR 1. -/
def c2bar2 : SimRow := ⟨1, 0, 100, 100, 100, 100, 1, 1, false, false, false, false, true⟩

/-- Bar 3 of the scenario: low 98 pierces the stop at 99. -/
def c2bar3 : SimRow := ⟨2, 0, 99, 99, 98, 98, 1, 0, false, false, false, false, true⟩

/-- The scenario's bar sequence. -/
def c2rows : List SimRow := [c2bar1, c2bar2, c2bar3]

/-- The trade the scenario produces: closed at the stop price 99 (not the
bar low 98), P&L `(99 − 100)·1·10 = −10`. -/
def c2trade : Trade :=
  { toPosition := ⟨"LONG", 100, 99, 103, 1, 1⟩
    exit_price := 99, exit_time := 2, pnl := -10, reason := "stop" }

/-- Full expected result of the scenario: final equity `100000 − 10`. -/
def c2result : BTResult :=
  { trades := [c2trade], equity := 99990, total_pnl := -10
    win_rate := some 0, profit_factor := some 0 }

/-- Parameters for the target-hit run (same as the stop scenario). -/
def c4params : Params := { atr_mult := 1 }

/-- Bars for the target-hit run: same entry as the stop scenario, but bar 3
stays above the stop (low 99.5) and reaches the target (high 104). -/
def c4rows : List SimRow :=
  [⟨0, 0, 0, 0, 0, 0, 0, 0, false, false, false, false, true⟩,
   ⟨1, 0, 100, 100, 100, 100, 1, 1, false, false, false, false, true⟩,
   ⟨2, 0, 100, 104, 199 / 2, 100, 1, 0, false, false, false, false, true⟩]

/-- The trade of the target-hit run: it closes at the stored target price
103 and the simulator records the reason string `"tp"`. -/
def c4trade : Trade :=
  { toPosition := ⟨"LONG", 100, 99, 103, 1, 1⟩
    exit_price := 103, exit_time := 2, pnl := 30, reason := "tp" }

/-- Expected result of the target-hit run: a single winning trade, hence no
losing trades and an undefined profit factor. -/
def c4result : BTResult :=
  { trades := [c4trade], equity := 100030, total_pnl := 30
    win_rate := some 1, profit_factor := none }

/-- Bars refuting the either-order reading of the pullback filter: a 100-point
drop, fourteen flat bars (so the drop has left the 14-bar ATR window), then a
pop to 10.  At the last bar `ema9 < close < ema21` while
`|close − ema21| > 1.5·ATR`, so the source filter is false although the close
lies between the two EMAs. -/
def c6bars : List Bar :=
  [⟨100, 100, 100, 1⟩] ++ List.replicate 15 (⟨0, 0, 0, 1⟩ : Bar) ++ [⟨10, 10, 10, 1⟩]

/-- A one-bar list for exercising the pullback column pointwise. -/
def c6wbars : List Bar := [⟨1, 1, 1, 1⟩]

/-- Parameters of the metrics witness run (the stop scenario again). -/
def c7params : Params := { atr_mult := 1 }

/-- Bars of the metrics witness run: one losing stop-out trade. -/
def c7rows : List SimRow :=
  [⟨0, 0, 0, 0, 0, 0, 0, 0, false, false, false, false, true⟩,
   ⟨1, 0, 100, 100, 100, 100, 1, 1, false, false, false, false, true⟩,
   ⟨2, 0, 99, 99, 98, 98, 1, 0, false, false, false, false, true⟩]

/-- Expected result of the metrics witness run. -/
def c7result : BTResult :=
  { trades := [{ toPosition := ⟨"LONG", 100, 99, 103, 1, 1⟩
                 exit_price := 99, exit_time := 2, pnl := -10, reason := "stop" }]
    equity := 99990, total_pnl := -10
    win_rate := some 0, profit_factor := some 0 }

/-- Bars for the VWAP witness: the first bar has zero volume (undefined
ratio), the second has volume 2. -/
def c8bars : List Bar := [⟨1, 1, 1, 0⟩, ⟨4, 2, 3, 2⟩]

/-- Parameters of the timing witness run. -/
def c9params : Params := { atr_mult := 1 }

/-- Bars of the timing witness run: entry on bar 2 (time 1), stop-out on
bar 3 (time 2). -/
def c9rows : List SimRow :=
  [⟨0, 0, 0, 0, 0, 0, 0, 0, false, false, false, false, true⟩,
   ⟨1, 0, 100, 100, 100, 100, 1, 1, false, false, false, false, true⟩,
   ⟨2, 0, 99, 99, 98, 98, 1, 0, false, false, false, false, true⟩]

/-- The trade of the timing witness run. -/
def c9trade : Trade :=
  { toPosition := ⟨"LONG", 100, 99, 103, 1, 1⟩
    exit_price := 99, exit_time := 2, pnl := -10, reason := "stop" }

/-- Expected result of the timing witness run. -/
def c9result : BTResult :=
  { trades := [c9trade], equity := 99990, total_pnl := -10
    win_rate := some 0, profit_factor := some 0 }

/-- Parameters of the NaN-HTF witness run. -/
def c10params : Params := { atr_mult := 1 }

/-- Bar 3 of the NaN-HTF witness run: its entry signal is the one the
strategy computes from an undefined HTF ema200, hence 0. -/
def c10bar3 : SimRow := ⟨2, 0, 99, 99, 98, 98, 1, 0, false, false, false, false, true⟩

/-- Bars of the NaN-HTF witness run: a trade is entered at time 1 and closed
at time 2; the bar with the NaN-HTF signal (time 2) opens nothing. -/
def c10rows : List SimRow :=
  [⟨0, 0, 0, 0, 0, 0, 0, 0, false, false, false, false, true⟩,
   ⟨1, 0, 100, 100, 100, 100, 1, 1, false, false, false, false, true⟩,
   c10bar3]

/-- The single trade of the NaN-HTF witness run (entered at time 1). -/
def c10trade : Trade :=
  { toPosition := ⟨"LONG", 100, 99, 103, 1, 1⟩
    exit_price := 99, exit_time := 2, pnl := -10, reason := "stop" }

/-- Expected result of the NaN-HTF witness run. -/
def c10result : BTResult :=
  { trades := [c10trade], equity := 99990, total_pnl := -10
    win_rate := some 0, profit_factor := some 0 }

end TradeXAI

namespace TradeXAI

/-! ## Basic lemmas about the step function -/

theorem dailyReset_position (st : SimState) (row : SimRow) :
    (dailyReset st row).position = st.position := by
  unfold dailyReset; split <;> rfl

theorem dailyReset_trades (st : SimState) (row : SimRow) :
    (dailyReset st row).trades = st.trades := by
  unfold dailyReset; split <;> rfl

theorem dailyReset_equity (st : SimState) (row : SimRow) :
    (dailyReset st row).equity = st.equity := by
  unfold dailyReset; split <;> rfl

theorem stepBar_eq (p : Params) (st : SimState) (prev row : SimRow) :
    stepBar p st prev row =
      match (dailyReset st row).position with
      | some pos =>
        match exitCheck pos prev row with
        | some er => applyClose (dailyReset st row) pos er.1 row.time er.2
        | none => dailyReset st row
      | none => entryStep p (dailyReset st row) row := rfl

/-- The exit decision realizes exactly the highest-priority condition that
fires: stop before target before technical exit before session close. -/
theorem exitCheck_of_hit (pos : Position) (prev row : SimRow)
    (h : stopHit pos row = true ∨ tpHit pos row = true ∨
         techHit pos row = true ∨ sessHit prev row = true) :
    exitCheck pos prev row =
      some (if stopHit pos row then pos.stop
            else if tpHit pos row then pos.tp else row.close,
            if stopHit pos row then "stop"
            else if tpHit pos row then "tp"
            else if techHit pos row then "technical_exit"
            else "session_close") := by
  unfold exitCheck stopHit tpHit techHit sessHit at *
  by_cases hs : pos.side = "LONG" <;>
    simp only [hs, if_true, if_false, Bool.or_eq_true, decide_eq_true_eq] at * <;>
  · rcases h with h | h | h | h <;> split_ifs <;> simp_all

/-- When no exit condition fires, the exit decision is `none`. -/
theorem exitCheck_of_miss (pos : Position) (prev row : SimRow)
    (h1 : stopHit pos row = false) (h2 : tpHit pos row = false)
    (h3 : techHit pos row = false) (h4 : sessHit prev row = false) :
    exitCheck pos prev row = none := by
  unfold exitCheck stopHit tpHit techHit sessHit at *
  by_cases hs : pos.side = "LONG" <;>
    simp only [hs, if_true, if_false, Bool.or_eq_true, decide_eq_true_eq,
      Bool.and_eq_true, Bool.not_eq_true', decide_eq_false_iff_not,
      not_or] at * <;>
    split_ifs <;> first | rfl | simp_all

end TradeXAI

namespace TradeXAI

/-- Reason strings produced by the exit decision are drawn from the ledger's
reason set. -/
theorem exitCheck_reason_mem (pos : Position) (prev row : SimRow)
    (er : ℚ × String) (h : exitCheck pos prev row = some er) :
    er.2 ∈ validReasons := by
  unfold exitCheck at h
  split_ifs at h <;> (try cases h) <;> simp_all [validReasons]

/-- Generic invariant lifting over the simulator loop. -/
theorem simLoop_invariant {P : SimState → Prop} (p : Params)
    (hstep : ∀ st prev row, P st → P (stepBar p st prev row)) :
    ∀ (l : List (SimRow × SimRow)) (st : SimState), P st → P (simLoop p st l) := by
  intro l
  induction l with
  | nil => intro st h; exact h
  | cons pr rest ih => intro st h; exact ih _ (hstep st pr.1 pr.2 h)

/-- Shape of a successful run. -/
theorem run_backtest_ok {rows : List SimRow} {p : Params} {res : BTResult}
    (h : run_backtest rows p = .ok res) :
    ∃ r0 rest, rows = r0 :: rest ∧
      res = mkResult (finalClose rows
        (simLoop p (initState p r0) (rows.zip rows.tail))) := by
  match rows with
  | [] => exact absurd h (by simp [run_backtest])
  | r0 :: rest =>
    refine ⟨r0, rest, rfl, ?_⟩
    simpa [run_backtest] using h.symm

/-- Shared characterization of the loop body on a bar where some exit
condition fires: exactly one trade is appended, carrying the
highest-priority matching condition's exit price and reason, and the bar
ends positionless. -/
theorem stepBar_first_match (p : Params) (st : SimState) (prev row : SimRow)
    (pos : Position) (hpos : st.position = some pos)
    (hhit : stopHit pos row = true ∨ tpHit pos row = true ∨
            techHit pos row = true ∨ sessHit prev row = true) :
    (stepBar p st prev row).position = none ∧
    (stepBar p st prev row).trades = st.trades ++
      [closeTrade pos
        (if stopHit pos row then pos.stop
         else if tpHit pos row then pos.tp else row.close)
        row.time
        (if stopHit pos row then "stop"
         else if tpHit pos row then "tp"
         else if techHit pos row then "technical_exit"
         else "session_close")] := by
  have hex := exitCheck_of_hit pos prev row hhit
  simp [stepBar_eq, dailyReset_position, hpos, hex, applyClose, closeTrade,
    dailyReset_trades]

/-! ## C1 -/

/-- C1: for every bar processed while a position is open, the simulator tests
the exit conditions in the fixed priority order stop, target, technical exit,
session close; it realizes only the first condition that matches (the
appended trade carries that condition's exit price and reason), and after the
close it takes no further action on the bar: the position is `none`
afterwards, so no new position opens on the bar of a close even when the
bar's entry signal fires. -/
theorem C1_exit_priority (p : Params) (st : SimState) (prev row : SimRow)
    (pos : Position) (hpos : st.position = some pos)
    (hhit : stopHit pos row = true ∨ tpHit pos row = true ∨
            techHit pos row = true ∨ sessHit prev row = true) :
    (stepBar p st prev row).position = none ∧
    (stepBar p st prev row).trades = st.trades ++
      [closeTrade pos
        (if stopHit pos row then pos.stop
         else if tpHit pos row then pos.tp else row.close)
        row.time
        (if stopHit pos row then "stop"
         else if tpHit pos row then "tp"
         else if techHit pos row then "technical_exit"
         else "session_close")] :=
  stepBar_first_match p st prev row pos hpos hhit

/-- Witness for C1: on `c1row` both the stop and the target fire and an entry
signal is present; only the stop is realized and the bar ends with no open
position. -/
theorem C1_exit_priority_witness :
    c1st.position = some c1pos ∧ stopHit c1pos c1row = true ∧
    tpHit c1pos c1row = true ∧ c1row.signal = 1 ∧
    (stepBar c1params c1st c1prev c1row).position = none ∧
    (stepBar c1params c1st c1prev c1row).trades = c1st.trades ++
      [closeTrade c1pos
        (if stopHit c1pos c1row then c1pos.stop
         else if tpHit c1pos c1row then c1pos.tp else c1row.close)
        c1row.time
        (if stopHit c1pos c1row then "stop"
         else if tpHit c1pos c1row then "tp"
         else if techHit c1pos c1row then "technical_exit"
         else "session_close")] :=
  ⟨rfl, by decide, by decide, rfl,
    (C1_exit_priority c1params c1st c1prev c1row c1pos rfl (Or.inl (by decide))).1,
    (C1_exit_priority c1params c1st c1prev c1row c1pos rfl (Or.inl (by decide))).2⟩

end TradeXAI

namespace TradeXAI

/-! ## C2 -/

/-- C2: whenever an open long's stop is hit (bar low ≤ stop) or an open
short's stop is hit (bar high ≥ stop), the appended trade's exit price is the
stored stop price exactly — never the bar's low or high — and its realized
P&L is `(exit − entry)·qty·tickValue` for a long and
`(entry − exit)·qty·tickValue` for a short; and in the concrete three-bar
scenario (entry open 100, ATR 1, atrMultiplier 1, tick value 10, bar-3 low
98) the run closes at exit price 99 with reason `stop`, P&L −10 and final
equity `initialEquity − 10`. -/
theorem C2_stop_exit :
    (∀ (p : Params) (st : SimState) (prev row : SimRow) (pos : Position),
        st.position = some pos → stopHit pos row = true →
        (stepBar p st prev row).trades =
          st.trades ++ [closeTrade pos pos.stop row.time "stop"] ∧
        (closeTrade pos pos.stop row.time "stop").exit_price = pos.stop ∧
        (closeTrade pos pos.stop row.time "stop").pnl =
          (if pos.side = "LONG" then pos.stop - pos.entry_price
           else pos.entry_price - pos.stop) * pos.qty * CONTRACT_TICK_VALUE) ∧
    run_backtest c2rows c2params = .ok c2result ∧
    c2trade.exit_price = 99 ∧ c2trade.exit_price ≠ c2bar3.low ∧
    c2trade.reason = "stop" ∧ c2trade.pnl = -10 ∧
    c2result.equity = c2params.initial_equity - 10 := by
  refine ⟨?_, ?_, rfl, by with_unfolding_all (exact of_decide_eq_true rfl), rfl,
    rfl, by with_unfolding_all rfl⟩
  · intro p st prev row pos hpos hstop
    have h := stepBar_first_match p st prev row pos hpos (Or.inl hstop)
    rw [hstop] at h
    exact ⟨by simpa using h.2, rfl, rfl⟩
  · with_unfolding_all rfl

/-- Witness for C2's general clause at a concrete stop-out bar. -/
theorem C2_stop_exit_witness :
    c2wst.position = some c2wpos ∧ stopHit c2wpos c2bar3 = true ∧
    (stepBar c2params c2wst c2bar2 c2bar3).trades =
      c2wst.trades ++ [closeTrade c2wpos c2wpos.stop c2bar3.time "stop"] :=
  ⟨rfl, by decide,
    (C2_stop_exit.1 c2params c2wst c2bar2 c2bar3 c2wpos rfl (by decide)).1⟩

/-! ## C3 -/

/-- C3: on an empty bar sequence the simulator does NOT return the zero-trade
result the specification promises — it raises an `IndexError` at
`df.index[0].date()` (backtest.py line 27) before the loop begins, for every
parameter configuration.  This theorem documents the fault. -/
theorem C3_empty_input_raises (p : Params) :
    run_backtest [] p = .error "IndexError" := rfl

/-! ## C4 -/

/-- C4 (amended): every trade appended to the ledger carries a close reason
drawn from the set {stop, tp, technical_exit, session_close, end_of_data} —
and a trade closed because the bar reached the target price is recorded with
the label `"tp"` (the source's name for the target reason), not `"target"`. -/
theorem C4_close_reasons :
    (∀ (rows : List SimRow) (p : Params) (res : BTResult),
        run_backtest rows p = .ok res →
        ∀ tr ∈ res.trades, tr.reason ∈ validReasons) ∧
    (∀ (p : Params) (st : SimState) (prev row : SimRow) (pos : Position),
        st.position = some pos → stopHit pos row = false → tpHit pos row = true →
        (stepBar p st prev row).trades =
          st.trades ++ [closeTrade pos pos.tp row.time "tp"]) := by
  constructor
  · intro rows p res hok tr htr
    obtain ⟨r0, rest, hrows, hres⟩ := run_backtest_ok hok
    have hstep : ∀ (st : SimState) (prev row : SimRow),
        (∀ t ∈ st.trades, t.reason ∈ validReasons) →
        ∀ t ∈ (stepBar p st prev row).trades, t.reason ∈ validReasons := by
      intro st prev row hinv t ht
      rw [stepBar_eq] at ht
      rcases hp : (dailyReset st row).position with _ | pos
      · simp only [hp, entryStep] at ht
        split_ifs at ht <;>
          exact hinv t (by simpa [dailyReset_trades] using ht)
      · simp only [hp] at ht
        rcases hec : exitCheck pos prev row with _ | er
        · simp only [hec] at ht
          exact hinv t (by simpa [dailyReset_trades] using ht)
        · simp only [hec, applyClose, dailyReset_trades, List.mem_append,
            List.mem_singleton] at ht
          rcases ht with ht | ht
          · exact hinv t ht
          · subst ht
            simpa [closeTrade] using exitCheck_reason_mem pos prev row er hec
    have hloop := simLoop_invariant
      (P := fun st => ∀ t ∈ st.trades, t.reason ∈ validReasons) p hstep
      (rows.zip rows.tail) (initState p r0) (by simp [initState])
    have hfinal : ∀ t ∈ (finalClose rows
        (simLoop p (initState p r0) (rows.zip rows.tail))).trades,
        t.reason ∈ validReasons := by
      intro t ht
      unfold finalClose at ht
      set st2 := simLoop p (initState p r0) (rows.zip rows.tail)
      rcases hp : st2.position with _ | pos <;> rcases hl : rows.getLast? with _ | lr <;>
        simp only [hp, hl] at ht
      · exact hloop t ht
      · exact hloop t ht
      · exact hloop t ht
      · rcases (List.mem_append.mp ht) with ht | ht
        · exact hloop t ht
        · simp only [List.mem_singleton] at ht
          subst ht
          simp [closeTrade, validReasons]
    subst hrows hres
    exact hfinal tr htr
  · intro p st prev row pos hpos hstop htp
    have h := stepBar_first_match p st prev row pos hpos (Or.inr (Or.inl htp))
    rw [hstop, htp] at h
    simpa using h.2

/-- Witness for C4: the target-hit run produces a trade whose reason is a
member of the reason set. -/
theorem C4_close_reasons_witness :
    run_backtest c4rows c4params = .ok c4result ∧
    c4trade ∈ c4result.trades ∧ c4trade.reason ∈ validReasons :=
  ⟨by with_unfolding_all rfl, by simp [c4result],
    C4_close_reasons.1 c4rows c4params c4result (by with_unfolding_all rfl)
      c4trade (by simp [c4result])⟩

/-- Counterexample for C4 as stated: in the target-hit run the trade closes
at the stored target price 103 (the bar's high 104 reached it), yet the
recorded reason string is `"tp"`, not `"target"`. -/
theorem C4_counterexample :
    run_backtest c4rows c4params = .ok c4result ∧
    c4result.trades.map Trade.reason = ["tp"] ∧
    c4result.trades.map Trade.exit_price = [103] ∧
    c4result.trades.map (fun t => t.tp) = [103] ∧
    ("tp" : String) ≠ "target" :=
  ⟨by with_unfolding_all rfl, rfl, rfl, rfl, by decide⟩

end TradeXAI

namespace TradeXAI

/-- The last value of the EMA recurrence started at `v` is the fold of the
recurrence over the remaining inputs. -/
theorem emaFrom_getLast? (a : ℚ) :
    ∀ (xs : List ℚ) (v : ℚ),
      (v :: emaFrom a v xs).getLast? =
        some (xs.foldl (fun w y => y * a + w * (1 - a)) v) := by
  intro xs
  induction xs with
  | nil => intro v; rfl
  | cons x xs ih =>
    intro v
    show ((v :: (x * a + v * (1 - a)) :: emaFrom a (x * a + v * (1 - a)) xs).getLast? = _)
    rw [List.getLast?_cons_cons, ih]
    rfl

/-- The last EMA value of a series is the seeded fold over the series. -/
theorem ema_getLast? (xs : List ℚ) (span : ℕ) :
    (ema xs span).getLast? = emaFoldLast (2 / ((span : ℚ) + 1)) xs := by
  cases xs with
  | nil => rfl
  | cons x rest => exact emaFrom_getLast? _ rest x

/-! ## C5 -/

/-- C5 (amended): the HTF ema200 attached to the base bars is NOT the EMA of
the resampled bucket-last series; each bucket's value is instead the final
value of the seeded EMA recurrence run over the closes *within that bucket
alone* (undefined for an empty bucket) — unlike the HTF MACD histogram,
which does apply the recurrences across the bucket-last series. -/
theorem C5_htf_ema200_per_bucket (buckets : List (List ℚ)) (span : ℕ) :
    ema200_htf_code buckets span =
      buckets.map (emaFoldLast (2 / ((span : ℚ) + 1))) := by
  unfold ema200_htf_code
  simp only [ema_getLast?]

/-- Counterexample for C5 as stated: with a first bucket holding the single
close 0 and a second bucket holding closes 201 then 0 (span 200, so
α = 2/201), the source computes bucket values `[0, 199]` — the second bucket's
EMA is seeded at 201 inside the bucket — while the claimed construction (EMA
over the bucket-last series `[0, 0]`, as the MACD path does) yields `[0, 0]`. -/
theorem C5_counterexample :
    ema200_htf_code [[0], [201, 0]] 200 = [some 0, some 199] ∧
    ema200_htf_spec [[0], [201, 0]] 200 = [some 0, some 0] ∧
    ema200_htf_code [[0], [201, 0]] 200 ≠ ema200_htf_spec [[0], [201, 0]] 200 := by
  refine ⟨?_, ?_, ?_⟩ <;> with_unfolding_all (exact of_decide_eq_true rfl)

/-! ## C6 -/

/-- C6 (amended): for every bar, the pullback-to-EMA filter holds if and only
if the close lies between ema21 and ema9 in the one order `ema21 ≤ close ≤
ema9`, or `|close − ema21| ≤ 1.5·ATR`.  (The source checks only this order;
the either-order reading of the claim is refuted by `C6_counterexample`.) -/
theorem C6_pullback_formula (bars : List Bar) (s9 s21 alen : ℕ) (i : ℕ)
    (c e9 e21 a : ℚ)
    (hc : (closes bars)[i]? = some c)
    (h9 : (ema (closes bars) s9)[i]? = some e9)
    (h21 : (ema (closes bars) s21)[i]? = some e21)
    (ha : (atr bars alen)[i]? = some a) :
    (pullback_to_ema bars s9 s21 alen)[i]? =
      some (decide ((e21 ≤ c ∧ c ≤ e9) ∨ |c - e21| ≤ 3 / 2 * a)) := by
  unfold pullback_to_ema
  rw [List.getElem?_zipWith_eq_some]
  refine ⟨c, (e9, (e21, a)), hc, ?_, ?_⟩
  · rw [List.getElem?_zip_eq_some]
    refine ⟨h9, ?_⟩
    rw [List.getElem?_zip_eq_some]
    exact ⟨h21, ha⟩
  · rw [decide_eq_decide]
    tauto

/-- Witness for C6's amended formula on a one-bar series. -/
theorem C6_pullback_formula_witness :
    (closes c6wbars)[0]? = some 1 ∧
    (pullback_to_ema c6wbars 9 21 14)[0]? =
      some (decide (((1 : ℚ) ≤ 1 ∧ (1 : ℚ) ≤ 1) ∨ |(1 : ℚ) - 1| ≤ 3 / 2 * 0)) :=
  ⟨rfl, C6_pullback_formula c6wbars 9 21 14 0 1 1 1 0 rfl rfl rfl
    (by with_unfolding_all rfl)⟩

set_option maxRecDepth 10000 in
/-- Counterexample for C6 as stated ("in either order"): at the last bar of
`c6bars` the close lies between ema9 and ema21 in the order
`ema9 ≤ close ≤ ema21` and is far from ema21 relative to ATR, yet the
source's pullback filter evaluates to false. -/
theorem C6_counterexample :
    (pullback_to_ema c6bars 9 21 14).getLastD true = false ∧
    (ema (closes c6bars) 9).getLastD 0 ≤ (closes c6bars).getLastD 0 ∧
    (closes c6bars).getLastD 0 ≤ (ema (closes c6bars) 21).getLastD 0 ∧
    ¬|(closes c6bars).getLastD 0 - (ema (closes c6bars) 21).getLastD 0| ≤
        3 / 2 * (atr c6bars 14).getLastD 0 := by
  with_unfolding_all (exact of_decide_eq_true rfl)

end TradeXAI

namespace TradeXAI

/-- The metrics of a successful run are computed from its own trade list. -/
theorem run_backtest_fields {rows : List SimRow} {p : Params} {res : BTResult}
    (h : run_backtest rows p = .ok res) :
    res.win_rate = win_rateOf res.trades ∧
    res.profit_factor = profit_factorOf res.trades := by
  obtain ⟨r0, rest, hrows, hres⟩ := run_backtest_ok h
  subst hres
  exact ⟨rfl, rfl⟩

/-- A list of non-positive rationals has non-positive sum. -/
theorem sum_nonpos_of_forall {l : List ℚ} (h : ∀ x ∈ l, x ≤ 0) : l.sum ≤ 0 := by
  induction l with
  | nil => simp
  | cons x xs ih =>
    simp only [List.sum_cons]
    have h1 := h x (by simp)
    have h2 := ih fun y hy => h y (by simp [hy])
    linarith

/-- The losing-trade bucket sums to a non-positive P&L by construction. -/
theorem pnlSum_lossesOf_nonpos (l : List Trade) : pnlSum (lossesOf l) ≤ 0 := by
  apply sum_nonpos_of_forall
  intro x hx
  obtain ⟨t, ht, rfl⟩ := List.mem_map.mp hx
  have := List.mem_filter.mp ht
  simpa using this.2

/-! ## C7 -/

/-- C7: over the trade ledger, win rate is the count of strictly-positive-P&L
trades divided by the total trade count and is undefined exactly when there
are zero trades; profit factor is the winning trades' P&L sum divided by the
absolute value of the losing trades' P&L sum and is undefined exactly when
there are zero losing trades (a trade with P&L ≤ 0). -/
theorem C7_metrics (rows : List SimRow) (p : Params) (res : BTResult)
    (h : run_backtest rows p = .ok res) :
    (res.win_rate = none ↔ res.trades = []) ∧
    (res.trades ≠ [] →
      res.win_rate =
        some (((winsOf res.trades).length : ℚ) / (res.trades.length : ℚ))) ∧
    (res.profit_factor = none ↔ lossesOf res.trades = []) ∧
    (lossesOf res.trades ≠ [] →
      res.profit_factor =
        some (pnlSum (winsOf res.trades) / |pnlSum (lossesOf res.trades)|)) := by
  obtain ⟨hw, hpf⟩ := run_backtest_fields h
  rw [hw, hpf]
  refine ⟨?_, ?_, ?_, ?_⟩
  · unfold win_rateOf
    split_ifs with h1
    · have := List.length_pos.mp h1
      simp [this]
    · have h0 : res.trades = [] := List.length_eq_zero.mp (by omega)
      simp [h0]
  · intro hne
    unfold win_rateOf
    rw [if_pos (List.length_pos.mpr hne)]
  · unfold profit_factorOf
    split_ifs with h1
    · have := List.length_pos.mp h1
      simp [this]
    · have h0 : lossesOf res.trades = [] := List.length_eq_zero.mp (by omega)
      simp [h0]
  · intro hne
    unfold profit_factorOf
    rw [if_pos (List.length_pos.mpr hne),
      abs_of_nonpos (pnlSum_lossesOf_nonpos res.trades)]

/-- Witness for C7 on a one-trade losing run. -/
theorem C7_metrics_witness :
    run_backtest c7rows c7params = .ok c7result ∧
    (c7result.win_rate = none ↔ c7result.trades = []) ∧
    (lossesOf c7result.trades ≠ [] →
      c7result.profit_factor =
        some (pnlSum (winsOf c7result.trades) / |pnlSum (lossesOf c7result.trades)|)) :=
  ⟨by with_unfolding_all rfl,
   (C7_metrics c7rows c7params c7result (by with_unfolding_all rfl)).1,
   (C7_metrics c7rows c7params c7result (by with_unfolding_all rfl)).2.2.2⟩

end TradeXAI

namespace TradeXAI

/-- Lengths of the cumulative series. -/
theorem length_cumsum (xs : List ℚ) : (cumsum xs).length = xs.length := by
  simp [cumsum]

/-- Length of the cumulative-volume series. -/
theorem length_cum_vol (bars : List Bar) : (cum_vol bars).length = bars.length := by
  simp [cum_vol, length_cumsum]

/-- Length of the cumulative price-volume series. -/
theorem length_cum_vp (bars : List Bar) : (cum_vp bars).length = bars.length := by
  simp [cum_vp, length_cumsum]

/-- Entry of the cumulative series: the sum of the prefix ending there. -/
theorem cumsum_getElem? (xs : List ℚ) (i : ℕ) (hi : i < xs.length) :
    (cumsum xs)[i]? = some (xs.take (i + 1)).sum := by
  unfold cumsum
  rw [List.getElem?_map, List.getElem?_range hi]
  rfl

/-- Entry of the raw VWAP ratio series. -/
theorem vwapRaw_getElem? (bars : List Bar) (i : ℕ) (vp vol : ℚ)
    (h1 : (cum_vp bars)[i]? = some vp) (h2 : (cum_vol bars)[i]? = some vol) :
    (vwapRaw bars)[i]? =
      some (if vol = 0 then none else some (vp / vol)) := by
  unfold vwapRaw
  rw [List.getElem?_zipWith_eq_some]
  exact ⟨vp, vol, h1, h2, rfl⟩

/-- Unfolding of the forward fill at a defined head. -/
theorem ffillGo_cons_some (cur : Option ℚ) (v : ℚ) (tl : List (Option ℚ)) :
    ffillGo cur (some v :: tl) = some v :: ffillGo (some v) tl := rfl

/-- Unfolding of the forward fill at an undefined head. -/
theorem ffillGo_cons_none (cur : Option ℚ) (tl : List (Option ℚ)) :
    ffillGo cur (none :: tl) = cur :: ffillGo cur tl := rfl

/-- Forward-filling never changes a defined entry. -/
theorem ffillGo_getElem?_some :
    ∀ (l : List (Option ℚ)) (cur : Option ℚ) (i : ℕ) (x : ℚ),
      l[i]? = some (some x) → (ffillGo cur l)[i]? = some (some x) := by
  intro l
  induction l with
  | nil => intro cur i x h; simp at h
  | cons hd tl ih =>
    intro cur i x h
    cases hd with
    | some v =>
      rw [ffillGo_cons_some]
      cases i with
      | zero =>
        simp only [List.getElem?_cons_zero, Option.some.injEq] at h ⊢
        exact h
      | succ n =>
        simp only [List.getElem?_cons_succ] at h ⊢
        exact ih (some v) n x h
    | none =>
      rw [ffillGo_cons_none]
      cases i with
      | zero => simp at h
      | succ n =>
        simp only [List.getElem?_cons_succ] at h ⊢
        exact ih cur n x h

/-- Once the carry is defined, every entry of the forward-filled series is
defined. -/
theorem ffillGo_some_carry :
    ∀ (l : List (Option ℚ)) (w : ℚ) (j : ℕ), j < l.length →
      ∃ z, (ffillGo (some w) l)[j]? = some (some z) := by
  intro l
  induction l with
  | nil => intro w j hj; simp at hj
  | cons hd tl ih =>
    intro w j hj
    cases hd with
    | some v =>
      rw [ffillGo_cons_some]
      cases j with
      | zero => exact ⟨v, by simp⟩
      | succ n =>
        obtain ⟨z, hz⟩ := ih v n (by simpa using hj)
        exact ⟨z, by simpa using hz⟩
    | none =>
      rw [ffillGo_cons_none]
      cases j with
      | zero => exact ⟨w, by simp⟩
      | succ n =>
        obtain ⟨z, hz⟩ := ih w n (by simpa using hj)
        exact ⟨z, by simpa using hz⟩

/-- Definedness of the forward-filled series persists rightward. -/
theorem ffillGo_defined_after :
    ∀ (l : List (Option ℚ)) (cur : Option ℚ) (i j : ℕ) (y : ℚ),
      (ffillGo cur l)[i]? = some (some y) → i ≤ j → j < l.length →
      ∃ z, (ffillGo cur l)[j]? = some (some z) := by
  intro l
  induction l with
  | nil => intro cur i j y _ _ hj; simp at hj
  | cons hd tl ih =>
    intro cur i j y hi hij hj
    cases i with
    | zero =>
      cases j with
      | zero => exact ⟨y, hi⟩
      | succ m =>
        have hm : m < tl.length := by simpa using hj
        cases hd with
        | some v =>
          rw [ffillGo_cons_some]
          obtain ⟨z, hz⟩ := ffillGo_some_carry tl v m hm
          exact ⟨z, by simpa using hz⟩
        | none =>
          rw [ffillGo_cons_none] at hi ⊢
          have hcur : cur = some y := by simpa using hi
          subst hcur
          obtain ⟨z, hz⟩ := ffillGo_some_carry tl y m hm
          exact ⟨z, by simpa using hz⟩
    | succ n =>
      cases j with
      | zero => omega
      | succ m =>
        have hm : m < tl.length := by simpa using hj
        have hnm : n ≤ m := by omega
        cases hd with
        | some v =>
          rw [ffillGo_cons_some] at hi ⊢
          simp only [List.getElem?_cons_succ] at hi ⊢
          exact ih (some v) n m y hi hnm hm
        | none =>
          rw [ffillGo_cons_none] at hi ⊢
          simp only [List.getElem?_cons_succ] at hi ⊢
          exact ih cur n m y hi hnm hm

/-- A series whose prefix up to `i` is all-undefined stays undefined at `i`
after forward-filling with an undefined carry. -/
theorem ffillGo_none_of_prefix_none :
    ∀ (l : List (Option ℚ)) (i : ℕ),
      (∀ k, k ≤ i → l[k]? = some none) →
      (ffillGo none l)[i]? = some none := by
  intro l
  induction l with
  | nil => intro i h; have := h 0 (Nat.zero_le i); simp at this
  | cons hd tl ih =>
    intro i h
    have h0 : hd = none := by have := h 0 (Nat.zero_le i); simpa using this
    subst h0
    rw [ffillGo_cons_none]
    cases i with
    | zero => simp
    | succ n =>
      have hrest : ∀ k, k ≤ n → tl[k]? = some none := by
        intro k hk
        have := h (k + 1) (by omega)
        simpa using this
      simpa using ih n hrest

/-- Prefix sums of a non-negative series are monotone in the prefix length. -/
theorem take_sum_mono {xs : List ℚ} (hx : ∀ x ∈ xs, 0 ≤ x)
    {i j : ℕ} (hij : i ≤ j) : (xs.take i).sum ≤ (xs.take j).sum := by
  have hsplit : xs.take j = xs.take i ++ (xs.drop i).take (j - i) := by
    rw [← List.take_add]
    congr 1
    omega
  rw [hsplit, List.sum_append]
  have : 0 ≤ ((xs.drop i).take (j - i)).sum := by
    apply List.sum_nonneg
    intro x hxm
    exact hx x (List.mem_of_mem_drop (List.mem_of_mem_take hxm))
  linarith

/-- Prefix sums of a non-negative series are non-negative. -/
theorem take_sum_nonneg {xs : List ℚ} (hx : ∀ x ∈ xs, 0 ≤ x) (i : ℕ) :
    0 ≤ (xs.take i).sum := by
  apply List.sum_nonneg
  intro x hxm
  exact hx x (List.mem_of_mem_take hxm)

end TradeXAI

namespace TradeXAI

/-- Length of the raw VWAP ratio series. -/
theorem length_vwapRaw (bars : List Bar) :
    (vwapRaw bars).length = bars.length := by
  unfold vwapRaw
  rw [List.length_zipWith, length_cum_vp, length_cum_vol]
  simp

/-! ## C8 -/

/-- C8: VWAP is cumulative over the whole dataset and never session-reset —
wherever the cumulative volume from the first bar is non-zero, the value is
exactly the cumulative typical-price×volume sum divided by the cumulative
volume, both taken from the origin; definedness persists: every bar at or
after the first defined ratio has a defined VWAP; and while the cumulative
volume is still zero the value is undefined. -/
theorem C8_vwap (bars : List Bar) (hvol : ∀ b ∈ bars, 0 ≤ b.volume) :
    (∀ (i : ℕ) (vp vol : ℚ), (cum_vp bars)[i]? = some vp →
        (cum_vol bars)[i]? = some vol → vol ≠ 0 →
        (vwap bars)[i]? = some (some (vp / vol))) ∧
    (∀ (i j : ℕ) (x : ℚ), (vwap bars)[i]? = some (some x) → i ≤ j →
        j < bars.length → ∃ y, (vwap bars)[j]? = some (some y)) ∧
    (∀ (i : ℕ), (cum_vol bars)[i]? = some 0 →
        (vwap bars)[i]? = some none) := by
  refine ⟨?_, ?_, ?_⟩
  · intro i vp vol h1 h2 hne
    have hraw := vwapRaw_getElem? bars i vp vol h1 h2
    rw [if_neg hne] at hraw
    unfold vwap ffill
    exact ffillGo_getElem?_some _ none i _ hraw
  · intro i j x hi hij hj
    unfold vwap ffill at hi ⊢
    exact ffillGo_defined_after (vwapRaw bars) none i j x hi hij
      (by rw [length_vwapRaw]; exact hj)
  · intro i h2
    have hibound : i < bars.length := by
      have hlt : i < (cum_vol bars).length := by
        by_contra hcon
        rw [List.getElem?_eq_none (by omega)] at h2
        exact Option.noConfusion h2
      rwa [length_cum_vol] at hlt
    have hveq : ∀ x ∈ bars.map Bar.volume, 0 ≤ x := by
      intro x hx
      obtain ⟨b, hb, rfl⟩ := List.mem_map.mp hx
      exact hvol b hb
    have hci : (cum_vol bars)[i]? =
        some (((bars.map Bar.volume).take (i + 1)).sum) :=
      cumsum_getElem? _ i (by simpa using hibound)
    have hzero : (((bars.map Bar.volume).take (i + 1)).sum) = 0 := by
      rw [hci] at h2
      exact (Option.some.injEq _ _).mp h2
    unfold vwap ffill
    apply ffillGo_none_of_prefix_none
    intro k hk
    have hkbound : k < bars.length := lt_of_le_of_lt hk hibound
    have hck : (cum_vol bars)[k]? =
        some (((bars.map Bar.volume).take (k + 1)).sum) :=
      cumsum_getElem? _ k (by simpa using hkbound)
    have hk0 : (((bars.map Bar.volume).take (k + 1)).sum) = 0 := by
      have hle := take_sum_mono hveq (show k + 1 ≤ i + 1 by omega)
      have hge := take_sum_nonneg hveq (k + 1)
      linarith [hzero ▸ hle]
    have hvpk : (cum_vp bars)[k]? =
        some (((bars.map fun b => typicalPrice b * b.volume).take (k + 1)).sum) :=
      cumsum_getElem? _ k (by simpa using hkbound)
    have hraw := vwapRaw_getElem? bars k _ _ hvpk hck
    rw [hk0, if_pos rfl] at hraw
    exact hraw

/-- Witness for C8: first bar has zero volume (undefined VWAP), second bar's
VWAP is the cumulative ratio `6/2`. -/
theorem C8_vwap_witness :
    (∀ b ∈ c8bars, 0 ≤ b.volume) ∧
    (vwap c8bars)[0]? = some none ∧
    (vwap c8bars)[1]? = some (some (6 / 2)) :=
  ⟨by decide,
   (C8_vwap c8bars (by decide)).2.2 0 (by with_unfolding_all rfl),
   (C8_vwap c8bars (by decide)).1 1 6 2 (by with_unfolding_all rfl)
     (by with_unfolding_all rfl) (by decide)⟩

end TradeXAI

namespace TradeXAI

/-- Entry handling never touches the ledger. -/
theorem entryStep_trades (p : Params) (st : SimState) (row : SimRow) :
    (entryStep p st row).trades = st.trades := by
  unfold entryStep
  split_ifs <;> rfl

/-- A position present after entry handling was either already open or was
opened on this very bar (its entry time is the bar's time). -/
theorem entryStep_position (p : Params) (st : SimState) (row : SimRow)
    (pos' : Position) (h : (entryStep p st row).position = some pos') :
    st.position = some pos' ∨ pos'.entry_time = row.time := by
  unfold entryStep at h
  split_ifs at h
  · exact Or.inl h
  · right
    have : pos' = ⟨"LONG", row.open_, row.open_ - p.atr_mult * row.atr,
        row.open_ + 3 * (row.open_ - (row.open_ - p.atr_mult * row.atr)), 1,
        row.time⟩ := by
      simpa using h.symm
    rw [this]
  · right
    have : pos' = ⟨"SHORT", row.open_, row.open_ + p.atr_mult * row.atr,
        row.open_ - 3 * (row.open_ + p.atr_mult * row.atr - row.open_), 1,
        row.time⟩ := by
      simpa using h.symm
    rw [this]
  · exact Or.inl h

/-- In a time-sorted list every member's time is at most the last one's. -/
theorem time_le_getLast :
    ∀ (rows : List SimRow), rows.Pairwise (fun a b => a.time < b.time) →
      ∀ r ∈ rows, ∀ lr, rows.getLast? = some lr → r.time ≤ lr.time := by
  intro rows
  induction rows with
  | nil => intro _ r hr; simp at hr
  | cons a tl ih =>
    intro hpw r hr lr hl
    cases tl with
    | nil =>
      simp only [List.getLast?_singleton, Option.some.injEq] at hl
      simp only [List.mem_singleton] at hr
      subst hl hr
      exact le_refl _
    | cons b tl2 =>
      rw [List.getLast?_cons_cons] at hl
      have hlr_mem : lr ∈ b :: tl2 := List.mem_of_getLast?_eq_some hl
      rcases List.mem_cons.mp hr with hr | hr
      · subst hr
        have := (List.pairwise_cons.mp hpw).1 lr hlr_mem
        omega
      · exact ih (List.Pairwise.of_cons hpw) r hr lr hl

/-- Pairwise transfer along a mapped list. -/
theorem pairwise_of_map_pairwise {α β : Type _} (f : α → β) (R : β → β → Prop)
    (l : List α) (h : (l.map f).Pairwise R) :
    l.Pairwise (fun a b => R (f a) (f b)) :=
  List.pairwise_map.mp h

/-- Loop invariant for C9: trades close strictly after they open, and an
open position's entry time is below every remaining bar's time and at most
the final bar's time. -/
theorem simLoop_times (p : Params) (lastT : ℕ) :
    ∀ (prs : List (SimRow × SimRow)) (st : SimState),
      prs.Pairwise (fun x y => x.2.time < y.2.time) →
      (∀ pr ∈ prs, pr.2.time ≤ lastT) →
      (∀ tr ∈ st.trades, tr.entry_time < tr.exit_time) →
      (∀ pos, st.position = some pos →
        (∀ pr ∈ prs, pos.entry_time < pr.2.time) ∧ pos.entry_time ≤ lastT) →
      (∀ tr ∈ (simLoop p st prs).trades, tr.entry_time < tr.exit_time) ∧
      (∀ pos, (simLoop p st prs).position = some pos →
        pos.entry_time ≤ lastT) := by
  intro prs
  induction prs with
  | nil =>
    intro st _ _ h1 h2
    exact ⟨h1, fun pos hp => (h2 pos hp).2⟩
  | cons pr rest ih =>
    intro st hpw hble h1 h2
    have hpw' := List.Pairwise.of_cons hpw
    have hble' : ∀ q ∈ rest, q.2.time ≤ lastT := fun q hq => hble q (by simp [hq])
    have hhead : ∀ q ∈ rest, pr.2.time < q.2.time :=
      (List.pairwise_cons.mp hpw).1
    refine ih (stepBar p st pr.1 pr.2) hpw' hble' ?_ ?_
    · -- trades invariant after one step
      intro tr htr
      rw [stepBar_eq] at htr
      rcases hp : (dailyReset st pr.2).position with _ | pos
      · simp only [hp, entryStep_trades, dailyReset_trades] at htr
        exact h1 tr htr
      · rcases hec : exitCheck pos pr.1 pr.2 with _ | er
        · simp only [hp, hec, dailyReset_trades] at htr
          exact h1 tr htr
        · simp only [hp, hec, applyClose, dailyReset_trades, List.mem_append,
            List.mem_singleton] at htr
          rcases htr with htr | htr
          · exact h1 tr htr
          · subst htr
            have hpos : st.position = some pos := by
              rw [← dailyReset_position st pr.2]; exact hp
            have := (h2 pos hpos).1 pr (by simp)
            simpa [closeTrade] using this
    · -- position invariant after one step
      intro pos' hp'
      rw [stepBar_eq] at hp'
      rcases hp : (dailyReset st pr.2).position with _ | pos
      · simp only [hp] at hp'
        rcases entryStep_position p (dailyReset st pr.2) pr.2 pos' hp' with hold | hnew
        · rw [hp] at hold
          exact Option.noConfusion hold
        · constructor
          · intro q hq
            rw [hnew]
            exact hhead q hq
          · rw [hnew]
            exact hble pr (by simp)
      · rcases hec : exitCheck pos pr.1 pr.2 with _ | er
        · simp only [hp, hec] at hp'
          have heq : pos = pos' := by simpa using hp'
          subst heq
          have hpos : st.position = some pos := by
            rw [← dailyReset_position st pr.2]; exact hp
          exact ⟨fun q hq => (h2 pos hpos).1 q (by simp [hq]), (h2 pos hpos).2⟩
        · simp only [hp, hec, applyClose] at hp'
          exact Option.noConfusion hp'

/-! ## C9 -/

/-- C9: with strictly increasing bar timestamps, a position opened on some
bar is never closed by the stop, target, technical-exit or session-close
rules on that same bar — every trade whose reason is not `end_of_data` has an
exit time strictly later than its entry time (entries are evaluated only
after exit handling, and opening a position ends that bar's processing); the
end-of-data forced close is the only one that can share the entry bar, and
even there the exit time is never earlier than the entry time. -/
theorem C9_exit_strictly_after_entry (rows : List SimRow) (p : Params)
    (res : BTResult)
    (hmono : rows.Pairwise (fun a b => a.time < b.time))
    (h : run_backtest rows p = .ok res) :
    (∀ tr ∈ res.trades, tr.reason ≠ "end_of_data" →
      tr.entry_time < tr.exit_time) ∧
    (∀ tr ∈ res.trades, tr.reason = "end_of_data" →
      tr.entry_time ≤ tr.exit_time) := by
  obtain ⟨r0, rest, hrows, hres⟩ := run_backtest_ok h
  rcases hlast : rows.getLast? with _ | lr
  · rw [List.getLast?_eq_none_iff] at hlast
    rw [hlast] at hrows
    exact List.noConfusion hrows
  have hpairs_pw : (rows.zip rows.tail).Pairwise
      (fun x y => x.2.time < y.2.time) := by
    have hmap : (rows.zip rows.tail).map Prod.snd = rows.tail :=
      List.map_snd_zip rows rows.tail (List.length_tail rows ▸ Nat.sub_le _ _)
    have htail : rows.tail.Pairwise (fun a b => a.time < b.time) := by
      cases rows with
      | nil => simp
      | cons a tl => exact List.Pairwise.of_cons hmono
    have hmapped : (List.map Prod.snd (rows.zip rows.tail)).Pairwise
        (fun a b => a.time < b.time) := by rw [hmap]; exact htail
    exact pairwise_of_map_pairwise Prod.snd (fun a b => a.time < b.time)
      (rows.zip rows.tail) hmapped
  have hble : ∀ pr ∈ rows.zip rows.tail, pr.2.time ≤ lr.time := by
    intro pr hpr
    have hmem2 : pr.2 ∈ rows.tail := by
      have := List.of_mem_zip (show (pr.1, pr.2) ∈ rows.zip rows.tail by
        simpa using hpr)
      exact this.2
    have hmem : pr.2 ∈ rows := List.mem_of_mem_tail hmem2
    exact time_le_getLast rows hmono pr.2 hmem lr hlast
  have hloop := simLoop_times p lr.time (rows.zip rows.tail)
    (initState p r0) hpairs_pw hble (by simp [initState])
    (by intro pos hp; exact Option.noConfusion hp)
  set st2 := simLoop p (initState p r0) (rows.zip rows.tail) with hst2
  have hres_trades : res.trades = (finalClose rows st2).trades := by
    rw [hres]; rfl
  constructor
  · intro tr htr hne
    rw [hres_trades] at htr
    unfold finalClose at htr
    rcases hp : st2.position with _ | pos
    · simp only [hp] at htr
      exact hloop.1 tr htr
    · simp only [hp, hlast, List.mem_append, List.mem_singleton] at htr
      rcases htr with htr | htr
      · exact hloop.1 tr htr
      · subst htr
        simp [closeTrade] at hne
  · intro tr htr heod
    rw [hres_trades] at htr
    unfold finalClose at htr
    rcases hp : st2.position with _ | pos
    · simp only [hp] at htr
      exact le_of_lt (hloop.1 tr htr)
    · simp only [hp, hlast, List.mem_append, List.mem_singleton] at htr
      rcases htr with htr | htr
      · exact le_of_lt (hloop.1 tr htr)
      · subst htr
        simpa [closeTrade] using hloop.2 pos hp

/-- Witness for C9: in the stop-out run the trade enters at time 1 and exits
at time 2. -/
theorem C9_exit_strictly_after_entry_witness :
    run_backtest c9rows c9params = .ok c9result ∧
    c9trade ∈ c9result.trades ∧ c9trade.reason ≠ "end_of_data" ∧
    c9trade.entry_time < c9trade.exit_time :=
  ⟨by with_unfolding_all rfl, by simp [c9result], by decide,
   (C9_exit_strictly_after_entry c9rows c9params c9result (by decide)
     (by with_unfolding_all rfl)).1 c9trade (by simp [c9result]) (by decide)⟩

end TradeXAI

namespace TradeXAI

/-- A position present after entry handling was either already open, or was
opened on this bar by a non-zero signal. -/
theorem entryStep_position_signal (p : Params) (st : SimState) (row : SimRow)
    (pos' : Position) (h : (entryStep p st row).position = some pos') :
    st.position = some pos' ∨
      (pos'.entry_time = row.time ∧ row.signal ≠ 0) := by
  unfold entryStep at h
  split_ifs at h with hdl hs1 hs2
  · exact Or.inl h
  · right
    have hpos : pos' = ⟨"LONG", row.open_, row.open_ - p.atr_mult * row.atr,
        row.open_ + 3 * (row.open_ - (row.open_ - p.atr_mult * row.atr)), 1,
        row.time⟩ := by
      simpa using h.symm
    rw [hpos, hs1]
    exact ⟨rfl, by decide⟩
  · right
    have hpos : pos' = ⟨"SHORT", row.open_, row.open_ + p.atr_mult * row.atr,
        row.open_ - 3 * (row.open_ + p.atr_mult * row.atr - row.open_), 1,
        row.time⟩ := by
      simpa using h.symm
    rw [hpos, hs2]
    exact ⟨rfl, by decide⟩
  · exact Or.inl h

/-- In a list with pairwise-distinct times, a time determines the row. -/
theorem eq_of_time_eq :
    ∀ (l : List SimRow), l.Pairwise (fun a b => a.time ≠ b.time) →
      ∀ r ∈ l, ∀ r' ∈ l, r.time = r'.time → r = r' := by
  intro l
  induction l with
  | nil => intro _ r hr; simp at hr
  | cons a tl ih =>
    intro hpw r hr r' hr' heq
    rcases List.mem_cons.mp hr with h1 | h1
    · rcases List.mem_cons.mp hr' with h2 | h2
      · rw [h1, h2]
      · exfalso
        rw [h1] at heq
        exact (List.pairwise_cons.mp hpw).1 r' h2 heq
    · rcases List.mem_cons.mp hr' with h2 | h2
      · exfalso
        rw [h2] at heq
        exact (List.pairwise_cons.mp hpw).1 r h1 heq.symm
      · exact ih (List.Pairwise.of_cons hpw) r h1 r' h2 heq

/-- Loop invariant for C10: every ledger entry's entry time, and the open
position's entry time, originates from a processed row whose signal was
non-zero. -/
theorem simLoop_entry_sources (p : Params) (rows : List SimRow) :
    ∀ (prs : List (SimRow × SimRow)) (st : SimState),
      (∀ pr ∈ prs, pr.2 ∈ rows) →
      (∀ tr ∈ st.trades, ∃ r ∈ rows, r.time = tr.entry_time ∧ r.signal ≠ 0) →
      (∀ pos, st.position = some pos →
        ∃ r ∈ rows, r.time = pos.entry_time ∧ r.signal ≠ 0) →
      (∀ tr ∈ (simLoop p st prs).trades,
        ∃ r ∈ rows, r.time = tr.entry_time ∧ r.signal ≠ 0) ∧
      (∀ pos, (simLoop p st prs).position = some pos →
        ∃ r ∈ rows, r.time = pos.entry_time ∧ r.signal ≠ 0) := by
  intro prs
  induction prs with
  | nil => intro st _ h1 h2; exact ⟨h1, h2⟩
  | cons pr rest ih =>
    intro st hmem h1 h2
    have hmem' : ∀ q ∈ rest, q.2 ∈ rows := fun q hq => hmem q (by simp [hq])
    refine ih (stepBar p st pr.1 pr.2) hmem' ?_ ?_
    · intro tr htr
      rw [stepBar_eq] at htr
      rcases hp : (dailyReset st pr.2).position with _ | pos
      · simp only [hp, entryStep_trades, dailyReset_trades] at htr
        exact h1 tr htr
      · rcases hec : exitCheck pos pr.1 pr.2 with _ | er
        · simp only [hp, hec, dailyReset_trades] at htr
          exact h1 tr htr
        · simp only [hp, hec, applyClose, dailyReset_trades, List.mem_append,
            List.mem_singleton] at htr
          rcases htr with htr | htr
          · exact h1 tr htr
          · subst htr
            have hpos : st.position = some pos := by
              rw [← dailyReset_position st pr.2]; exact hp
            simpa [closeTrade] using h2 pos hpos
    · intro pos' hp'
      rw [stepBar_eq] at hp'
      rcases hp : (dailyReset st pr.2).position with _ | pos
      · simp only [hp] at hp'
        rcases entryStep_position_signal p (dailyReset st pr.2) pr.2 pos' hp'
          with hold | hnew
        · rw [hp] at hold
          exact Option.noConfusion hold
        · exact ⟨pr.2, hmem pr (by simp), hnew.1.symm, hnew.2⟩
      · rcases hec : exitCheck pos pr.1 pr.2 with _ | er
        · simp only [hp, hec] at hp'
          have heq : pos = pos' := by simpa using hp'
          subst heq
          have hpos : st.position = some pos := by
            rw [← dailyReset_position st pr.2]; exact hp
          exact h2 pos hpos
        · simp only [hp, hec, applyClose] at hp'
          exact Option.noConfusion hp'

/-! ## C10 -/

/-- C10: on any bar whose attached HTF ema200 or HTF MACD-histogram value is
undefined (NaN), both `htf_bull` and `htf_bear` are false, the entry signal
is 0, and — with pairwise-distinct bar times — no trade of the run is entered
on that bar. -/
theorem C10_nan_htf_no_entry (close : ℚ) (e200 mh : Option ℚ)
    (hnan : e200 = none ∨ mh = none)
    (inny stackL stackS volOk vwL vwS rise fall pb : Bool)
    (rows : List SimRow) (p : Params) (r : SimRow) (hr : r ∈ rows)
    (hdist : rows.Pairwise (fun a b => a.time ≠ b.time))
    (hsig : r.signal = mkSignal
      (long_setup inny (htf_bull close e200 mh) stackL vwL volOk rise pb)
      (short_setup inny (htf_bear close e200 mh) stackS vwS volOk fall pb))
    (res : BTResult) (h : run_backtest rows p = .ok res) :
    htf_bull close e200 mh = false ∧ htf_bear close e200 mh = false ∧
    r.signal = 0 ∧
    ∀ tr ∈ res.trades, tr.entry_time ≠ r.time := by
  have hbull : htf_bull close e200 mh = false := by
    rcases hnan with hn | hn <;> subst hn <;> simp [htf_bull, qgt]
  have hbear : htf_bear close e200 mh = false := by
    rcases hnan with hn | hn <;> subst hn <;> simp [htf_bear, qgt]
  have hsig0 : r.signal = 0 := by
    rw [hsig, hbull, hbear]
    simp [mkSignal, long_setup, short_setup]
  refine ⟨hbull, hbear, hsig0, ?_⟩
  intro tr htr heq
  obtain ⟨r0, rest, hrows, hres⟩ := run_backtest_ok h
  have hmem : ∀ pr ∈ rows.zip rows.tail, pr.2 ∈ rows := by
    intro pr hpr
    have := List.of_mem_zip (show (pr.1, pr.2) ∈ rows.zip rows.tail by
      simpa using hpr)
    exact List.mem_of_mem_tail this.2
  have hloop := simLoop_entry_sources p rows (rows.zip rows.tail)
    (initState p r0) hmem (by simp [initState])
    (by intro pos hp; exact Option.noConfusion hp)
  set st2 := simLoop p (initState p r0) (rows.zip rows.tail) with hst2
  have hsrc : ∃ rr ∈ rows, rr.time = tr.entry_time ∧ rr.signal ≠ 0 := by
    have htr2 : tr ∈ (finalClose rows st2).trades := by
      rw [hres] at htr
      exact htr
    unfold finalClose at htr2
    rcases hp : st2.position with _ | pos <;>
      rcases hl : rows.getLast? with _ | lr <;>
      simp only [hp, hl] at htr2
    · exact hloop.1 tr htr2
    · exact hloop.1 tr htr2
    · exact hloop.1 tr htr2
    · rcases List.mem_append.mp htr2 with htr3 | htr3
      · exact hloop.1 tr htr3
      · simp only [List.mem_singleton] at htr3
        subst htr3
        simpa [closeTrade] using hloop.2 pos hp
  obtain ⟨rr, hrr, hrt, hrs⟩ := hsrc
  have : rr = r := eq_of_time_eq rows hdist rr hrr r hr (by rw [hrt, heq])
  rw [this] at hrs
  exact hrs hsig0

/-- Witness for C10: in the stop-out run, bar 3's signal is the one the
strategy derives from an undefined HTF ema200 (hence 0), and the run's only
trade was entered at time 1, not on bar 3 (time 2). -/
theorem C10_nan_htf_no_entry_witness :
    c10bar3.signal = mkSignal
      (long_setup true (htf_bull 98 none (some 1)) true true true true true)
      (short_setup true (htf_bear 98 none (some 1)) true true true true true) ∧
    run_backtest c10rows c10params = .ok c10result ∧
    c10trade ∈ c10result.trades ∧
    c10trade.entry_time ≠ c10bar3.time :=
  ⟨rfl, by with_unfolding_all rfl, by simp [c10result],
   (C10_nan_htf_no_entry 98 none (some 1) (Or.inl rfl)
     true true true true true true true true true
     c10rows c10params c10bar3 (by simp [c10rows]) (by decide) rfl
     c10result (by with_unfolding_all rfl)).2.2.2
     c10trade (by simp [c10result])⟩

end TradeXAI
